import Mathlib

/-!
Verification of the psh process-execution library (KonishchevDmitry/psh).

This file shallowly embeds the parts of src/psh that the checked claims are
about:

* the Process state machine and its guarded operations
  (src/psh/process.py): wait with check_status, the accessors, kill,
  _execute, the pipe operator and _pipe_process;
* the bounded post-termination drain loop of Process.__communicate;
* the PIPESTATUS inspection emitted by Process._shell_command_full;
* argument rendering of Process.__parse_args and _get_arg_value;
* the descriptor-ownership discipline of psh._process.pipe.Pipe;
* the delimiter-splitting output iterator of
  psh._process.output_iterator.OutputIterator.

Byte strings are modelled as List Nat, file descriptors as Nat.  Stateful
methods become explicit state-passing functions returning the new state
together with the raised exception, if any.
-/

namespace Psh

/-! ### Process states (src/psh/process.py lines 77-87)

The four monotonically increasing states are integer constants in the
source; comparisons like state < _PROCESS_STATE_RUNNING are order
comparisons on those integers. -/

/-- Process state constants _PROCESS_STATE_PENDING .. _PROCESS_STATE_TERMINATED. -/
inductive ProcessState where
  | pending
  | spawning
  | running
  | terminated
deriving DecidableEq, Repr

/-- Numeric value of a state, matching the integer constants of the source. -/
def ProcessState.toNat : ProcessState → Nat
  | .pending => 0
  | .spawning => 1
  | .running => 2
  | .terminated => 3

/-- Exception kinds raised by the library (src/psh/exceptions.py). -/
inductive PshError where
  | invalidArgument
  | invalidOperation
  | invalidProcessState
  | executionError (status : Int) (stdout : List Nat) (stderr : List Nat)
  | processOutputWasTruncated
  | storedError (tag : Nat)
  | environmentError (errno : Nat)
  | logicalError
deriving DecidableEq, Repr

/-! ### Process.wait check_status phase (src/psh/process.py lines 451-491)

After joining the worker threads (and recursing into a piped stdin source),
wait executes, when check_status is true:

    if self.__error is not None: raise self.__error
    if self.__status not in self.__ok_statuses:
        raise ExecutionError(str(self), self.__status,
                             self.raw_stdout(), self.raw_stderr())
    return self.__status

We model the terminated process by the fields this phase reads. -/

/-- Fields of a terminated Process read by the check_status phase of wait:
the exit status slot, the ok-status list, the stored error slot and the
captured raw stdout and stderr buffers. -/
structure TermProcess where
  status : Int
  okStatuses : List Int
  errorSlot : Option PshError
  rawStdout : List Nat
  rawStderr : List Nat
deriving DecidableEq, Repr

/-- Model of the check_status phase of Process.wait on a terminated process:
returns the exit status or the raised exception. -/
def waitCheckStatus (p : TermProcess) (checkStatus : Bool) : Except PshError Int :=
  if checkStatus then
    match p.errorSlot with
    | some e => .error e
    | none =>
      if p.status ∈ p.okStatuses then .ok p.status
      else .error (.executionError p.status p.rawStdout p.rawStderr)
  else .ok p.status

/-! ### Accessors (src/psh/process.py lines 405-448, 973-977)

status, raw_stdout and raw_stderr call __ensure_terminated, which raises
InvalidProcessState unless the state is _PROCESS_STATE_TERMINATED; stdout
and stderr decode raw_stdout and raw_stderr and so inherit the same check.
pid raises InvalidProcessState when state < _PROCESS_STATE_RUNNING. -/

/-- Fields of a Process read by the public accessors. -/
structure AccessedProcess where
  state : ProcessState
  pid : Option Nat
  status : Option Int
  rawStdout : List Nat
  rawStderr : List Nat
deriving DecidableEq, Repr

/-- Process.__ensure_terminated. -/
def ensureTerminated (p : AccessedProcess) : Except PshError Unit :=
  if p.state ≠ .terminated then .error .invalidProcessState else .ok ()

/-- Process.status accessor. -/
def statusAccessor (p : AccessedProcess) : Except PshError (Option Int) :=
  (ensureTerminated p).map fun _ => p.status

/-- Process.raw_stdout accessor. -/
def rawStdoutAccessor (p : AccessedProcess) : Except PshError (List Nat) :=
  (ensureTerminated p).map fun _ => p.rawStdout

/-- Process.raw_stderr accessor. -/
def rawStderrAccessor (p : AccessedProcess) : Except PshError (List Nat) :=
  (ensureTerminated p).map fun _ => p.rawStderr

/-- Process.stdout accessor: psys.u decoding of raw_stdout (decoding is kept
abstract; only the state guard matters for the claims). -/
def stdoutAccessor (p : AccessedProcess) : Except PshError (List Nat) :=
  rawStdoutAccessor p

/-- Process.stderr accessor: psys.u decoding of raw_stderr. -/
def stderrAccessor (p : AccessedProcess) : Except PshError (List Nat) :=
  rawStderrAccessor p

/-- Process.pid accessor: raises InvalidProcessState when
state < _PROCESS_STATE_RUNNING. -/
def pidAccessor (p : AccessedProcess) : Except PshError (Option Nat) :=
  if p.state.toNat < ProcessState.running.toNat then .error .invalidProcessState
  else .ok p.pid

/-! ### Process.kill (src/psh/process.py lines 378-402)

    if self.__state < _PROCESS_STATE_RUNNING:
        raise InvalidProcessState("Process is not running")
    if self.__state == _PROCESS_STATE_RUNNING:
        try: os.kill(self.__pid, signal)
        except EnvironmentError as e:
            if e.errno != errno.ESRCH: raise e
        else: return True
    return False

The outcome of the os.kill system call is a parameter. -/

/-- Outcome of the os.kill system call: delivered, or failed with an errno. -/
inductive KillOutcome where
  | delivered
  | failed (errno : Nat)
deriving DecidableEq, Repr

/-- Linux value of errno.ESRCH. -/
def ESRCH : Nat := 3

/-- Model of Process.kill: given the state and the os.kill outcome, returns
whether the signal was delivered, together with the list of pids actually
signalled (to express that no signal is attempted outside the Running
state). -/
def processKill (st : ProcessState) (pid : Nat) (osKill : KillOutcome) :
    Except PshError (Bool × List Nat) :=
  if st.toNat < ProcessState.running.toNat then .error .invalidProcessState
  else if st = .running then
    match osKill with
    | .delivered => .ok (true, [pid])
    | .failed errno =>
      if errno ≠ ESRCH then .error (.environmentError errno)
      else .ok (false, [pid])
  else .ok (false, [])

/-! ### Process._execute guard (src/psh/process.py lines 494-523)

    with self.__lock:
        if self.__state != _PROCESS_STATE_PENDING:
            raise InvalidOperation("The process has been executed already")
        if check_pipes and self.__piped_to_process():
            raise InvalidOperation("Only the last process of the pipe can be executed")
        self.__state = _PROCESS_STATE_SPAWNING

We model the guarded transition; on failure the state is returned
unchanged. -/

/-- Model of the state guard of Process._execute: returns the raised
exception (if any) and the state after the call. -/
def executeGuard (st : ProcessState) (pipedToProcess : Bool) (checkPipes : Bool) :
    Option PshError × ProcessState :=
  if st ≠ .pending then (some .invalidOperation, st)
  else if checkPipes && pipedToProcess then (some .invalidOperation, st)
  else (none, .spawning)

/-! ### Pipe operator (src/psh/process.py lines 329-353 and 526-537)

Process.__or__ checks (under the lock of A) that A is Pending and that the
stdout target of A is still PIPE, then assigns A.stdout_target := B and
calls B._pipe_process(A), which checks that B is Pending and that the stdin
source of B is None or STDIN and then assigns B.stdin_source := A.  If
_pipe_process raises, the stdout target of A is rolled back to its value
captured before the assignment. -/

/-- Stdout target of a Process, as tested by Process.__or__: the PIPE
sentinel, another redirection (STDOUT, STDERR or a File), or a downstream
process. -/
inductive StdoutTarget where
  | pipeSentinel
  | otherRedirection
  | downstream
deriving DecidableEq, Repr

/-- Stdin source of a Process, as tested by Process._pipe_process: unset
(None), the STDIN sentinel, another redirection (File, string or iterator),
or an upstream process. -/
inductive StdinSource where
  | unset
  | stdinSentinel
  | otherRedirection
  | upstream
deriving DecidableEq, Repr

/-- Model of Process._pipe_process, run on process B with upstream A:
returns the new stdin source of B or the raised exception. -/
def pipeProcess (stB : ProcessState) (stdinB : StdinSource) :
    Except PshError StdinSource :=
  if stB ≠ .pending then .error .invalidProcessState
  else if stdinB ≠ .unset ∧ stdinB ≠ .stdinSentinel then .error .invalidOperation
  else .ok .upstream

/-- Model of Process.__or__ for A | B: returns the raised exception (if
any) together with the stdout target of A and the stdin source of B after
the call, including the rollback of A on failure of the B side. -/
def orOperator (stA : ProcessState) (stdoutA : StdoutTarget)
    (stB : ProcessState) (stdinB : StdinSource) :
    Option PshError × StdoutTarget × StdinSource :=
  if stA ≠ .pending then (some .invalidProcessState, stdoutA, stdinB)
  else if stdoutA ≠ .pipeSentinel then (some .invalidOperation, stdoutA, stdinB)
  else
    match pipeProcess stB stdinB with
    | .ok stdinB2 => (none, .downstream, stdinB2)
    | .error e => (some e, stdoutA, stdinB)

/-! ### Bounded drain phase of Process.__communicate
(src/psh/process.py lines 856-892)

When _wait_for_output is false and the termination descriptor fires, the
main poll loop stops and the remaining stdout/stderr pipes are drained:

    max_data_size = 1024 * 1024
    for pipe in self.__pipes:
        if pipe.source in (STDOUT, STDERR) and pipe.read is not None:
            size = 0
            while size < max_data_size:
                try:
                    data = eintr_retry(os.read)(pipe.read,
                        min(psys.BUFSIZE, max_data_size - size))
                except EnvironmentError as e:
                    if e.errno != errno.EAGAIN: raise e
                    if not self.__truncate_output:
                        self.__error = ProcessOutputWasTruncated(...)
                    break
                else:
                    if data:
                        size += len(data)
                        self.__on_output(pipe.source, data)
                    else:
                        break

The sequence of outcomes of the non-blocking os.read calls on one
descriptor is modelled as a finite list of events; a data event with an
empty chunk is end of file (os.read returns an empty byte string exactly at
EOF). -/

/-- Outcome of one non-blocking os.read call in the drain loop: data
(empty chunk = EOF) or an EnvironmentError with a flag telling whether
errno is EAGAIN. -/
inductive ReadEvent where
  | data (chunk : List Nat)
  | err (isEAGAIN : Bool)
deriving DecidableEq, Repr

/-- Reason the drain loop for one descriptor stopped. -/
inductive DrainStop where
  | cap
  | eof
  | eagain
  | raised
  | exhausted
deriving DecidableEq, Repr

/-- Result of draining one descriptor: the stop reason, the total number of
bytes read (the final value of size), whether the error slot was set to
ProcessOutputWasTruncated, and the bytes delivered to __on_output. -/
structure DrainResult where
  reason : DrainStop
  size : Nat
  truncErrSet : Bool
  out : List Nat
deriving DecidableEq, Repr

/-- Maximum output size read after process termination (max_data_size). -/
def maxDataSize : Nat := 1024 * 1024

/-- Model of the inner while loop of the drain phase for one descriptor.
The events list is the trace of os.read outcomes; DrainStop.exhausted marks
a modelling artefact where the trace ends while the loop would read again
(a real run always produces another outcome). -/
def drainLoop (truncateOutput : Bool) (evs : List ReadEvent) (size : Nat) :
    DrainResult :=
  if maxDataSize ≤ size then ⟨.cap, size, false, []⟩
  else
    match evs with
    | [] => ⟨.exhausted, size, false, []⟩
    | .err isEAGAIN :: _ =>
      if isEAGAIN then ⟨.eagain, size, !truncateOutput, []⟩
      else ⟨.raised, size, false, []⟩
    | .data chunk :: rest =>
      if chunk = [] then ⟨.eof, size, false, []⟩
      else
        let r := drainLoop truncateOutput rest (size + chunk.length)
        ⟨r.reason, r.size, r.truncErrSet, chunk ++ r.out⟩

/-- Model of the whole bounded-drain phase over the remaining output
descriptors: the error slot ends set iff the drain of some descriptor set
it (the slot is assigned, never cleared, by the loop). -/
def drainPhase (truncateOutput : Bool) (pipes : List (List ReadEvent)) : Bool :=
  pipes.foldl (fun e evs => e || (drainLoop truncateOutput evs 0).truncErrSet) false

/-! ### PIPESTATUS inspection of Process._shell_command_full
(src/psh/process.py lines 619-644)

For a pipeline of two or more stages the serializer appends, after the
pipeline itself:

    ; statuses=(${PIPESTATUS[@]});

and then, for each stage index i with its ok_statuses list:

  - for every stage but the last:
        case ${statuses[i]} in s1|s2|...);; *) exit 128;; esac;
    (the status patterns are omitted when ok_statuses is empty);
  - for the last stage:
        exit ${statuses[i]};

We mirror the generation loop as a list of statements indexed by the stage
position, and give the bash semantics of running that statement list with a
given PIPESTATUS vector. -/

/-- One statement of the generated PIPESTATUS inspection. -/
inductive PipeStmt where
  | caseStmt (idx : Nat) (okStatuses : List Int)
  | exitStmt (idx : Nat)
deriving DecidableEq, Repr

/-- Generation loop of Process._shell_command_full: the stage with
process_id equal to len(pipe_ok_statuses) - 1 (the one with an empty tail)
yields an exit statement, every other stage a case statement. -/
def pipestatusGo (i : Nat) : List (List Int) → List PipeStmt
  | [] => []
  | [_] => [.exitStmt i]
  | ok :: rest => .caseStmt i ok :: pipestatusGo (i + 1) rest

/-- Statement list generated by Process._shell_command_full from the
collected per-stage ok_statuses lists. -/
def pipestatusStatements (okLists : List (List Int)) : List PipeStmt :=
  pipestatusGo 0 okLists

/-- Bash semantics of the generated statement list: a case statement whose
status matches one of its patterns falls through to the next statement,
otherwise the catch-all branch exits with 128; an exit statement exits with
the indexed status. -/
def runStmts (statuses : List Int) : List PipeStmt → Int
  | [] => 0
  | .caseStmt i ok :: rest =>
    if statuses.getD i 0 ∈ ok then runStmts statuses rest else 128
  | .exitStmt i :: _ => statuses.getD i 0

/-- Exit status of the emitted bash -c command for a multi-stage pipeline:
the pipeline runs, bash records PIPESTATUS, and the generated inspection
determines the exit status from the per-stage statuses. -/
def pipelineExit (okLists : List (List Int)) (statuses : List Int) : Int :=
  runStmts statuses (pipestatusStatements okLists)

/-! ### Pipe descriptor ownership (src/psh/_process/pipe.py)

A Pipe holds an optional read and an optional write descriptor (None marks
an end that is closed or was transferred to another Pipe).  Construction
with a pipe argument adopts one end of the other Pipe:

    if output: self.read = None; self.write = pipe.write; pipe.write = None
    else:      self.read = pipe.read; pipe.read = None; self.write = None

close(read, write) closes each requested present end; on success the slot
is set to None, on failure the error is logged and the slot kept. -/

/-- Parent-side descriptor slots of a Pipe (source fd number and direction
flag omitted: the claims are about the read/write slots only). -/
structure PipeEnds where
  read : Option Nat
  write : Option Nat
deriving DecidableEq, Repr

/-- Pipe construction from a fresh os.pipe descriptor pair. -/
def PipeEnds.fresh (readFd writeFd : Nat) : PipeEnds :=
  ⟨some readFd, some writeFd⟩

/-- Pipe construction adopting one end of another Pipe (the pipe argument
of Pipe.__init__): returns the new Pipe and the source Pipe after the
transfer. -/
def PipeEnds.adopt (source : PipeEnds) (output : Bool) : PipeEnds × PipeEnds :=
  if output then (⟨none, source.write⟩, ⟨source.read, none⟩)
  else (⟨source.read, none⟩, ⟨none, source.write⟩)

/-- Closing one descriptor slot: if the slot holds a descriptor, os.close
is attempted on it (closeOk tells whether it succeeds); the slot is emptied
only on success.  Returns the new slot and the list of descriptors on which
os.close was called. -/
def closeSlot (slot : Option Nat) (closeOk : Nat → Bool) : Option Nat × List Nat :=
  match slot with
  | none => (none, [])
  | some fd => (if closeOk fd then none else some fd, [fd])

/-- Pipe.close(read, write): closes the requested present ends; returns
the Pipe afterwards and the descriptors on which os.close was called. -/
def PipeEnds.close (p : PipeEnds) (read write : Bool) (closeOk : Nat → Bool) :
    PipeEnds × List Nat :=
  let r := if read then closeSlot p.read closeOk else (p.read, [])
  let w := if write then closeSlot p.write closeOk else (p.write, [])
  (⟨r.1, w.1⟩, r.2 ++ w.2)

/-! ### Argument rendering (src/psh/process.py lines 1060-1136 and 1249-1259)

Process.__parse_args builds the argv list: the program name, then for each
keyword option whose name does not start with an underscore a command-line
option (single-character names become -x, longer names become
--name-with-hyphens), then the positional arguments.  Option and
positional values are rendered by _get_arg_value:

    if type(value) in (bytes, str): return value
    elif type(value) in (int, float): return str(value)
    elif shell and isinstance(value, Process): return value._shell_command_full()
    else: raise InvalidArgument(...)

Python True and False have type bool, which is not in (int, float), so a
boolean that reaches _get_arg_value is rejected.  A float is modelled as
carrying its decimal str() rendering; a Process value carries the byte
string produced by its _shell_command_full. -/

/-- Python value passed as a command argument or option value.  Strings
are modelled as character lists; a float carries its decimal str()
rendering; a Process value carries its _shell_command_full byte string. -/
inductive ArgValue where
  | vTrue
  | vFalse
  | vStr (s : List Char)
  | vBytes (b : List Nat)
  | vInt (n : Int)
  | vFloat (rendering : List Char)
  | vProc (shellCommand : List Nat)
  | vOther
deriving DecidableEq, Repr

/-- One entry of the built argv list (a Python str or bytes object; both
are encoded to bytes only at exec time). -/
inductive ArgEntry where
  | text (s : List Char)
  | raw (b : List Nat)
deriving DecidableEq, Repr

/-- Model of _get_arg_value. -/
def getArgValue (value : ArgValue) (shell : Bool) : Except PshError ArgEntry :=
  match value with
  | .vStr s => .ok (.text s)
  | .vBytes b => .ok (.raw b)
  | .vInt n => .ok (.text (toString n).data)
  | .vFloat r => .ok (.text r)
  | .vProc cmd => if shell then .ok (.raw cmd) else .error .invalidArgument
  | .vTrue => .error .invalidArgument
  | .vFalse => .error .invalidArgument
  | .vOther => .error .invalidArgument

/-- Flag string for a keyword option name: -x for a single-character name,
--name-with-hyphens otherwise.  The Python option.replace("_", "-") with a
single-character pattern is the character-wise substitution. -/
def optionFlag (name : List Char) : List Char :=
  if name.length = 1 then '-' :: name
  else '-' :: '-' :: name.map fun ch => if ch = '_' then '-' else ch

/-- Test of option.startswith("_"). -/
def isReservedName : List Char → Bool
  | '_' :: _ => true
  | _ => false

/-- Argv entries contributed by one keyword option in the command-building
loop of Process.__parse_args: names starting with an underscore are
reserved options and contribute nothing here; a False value contributes
nothing; a True value contributes just the flag; any other value
contributes the flag followed by its _get_arg_value rendering. -/
def optionEntries (shell : Bool) (name : List Char) (value : ArgValue) :
    Except PshError (List ArgEntry) :=
  if isReservedName name then .ok []
  else if value = .vFalse then .ok []
  else if value = .vTrue then .ok [.text (optionFlag name)]
  else (getArgValue value shell).map fun a => [.text (optionFlag name), a]

/-- Argv entries contributed by all keyword options, in order. -/
def optionsEntries (shell : Bool) : List (List Char × ArgValue) →
    Except PshError (List ArgEntry)
  | [] => .ok []
  | (name, value) :: rest => do
    let e ← optionEntries shell name value
    let r ← optionsEntries shell rest
    return e ++ r

/-- Argv entries contributed by the positional arguments, in order. -/
def positionalEntries (shell : Bool) : List ArgValue →
    Except PshError (List ArgEntry)
  | [] => .ok []
  | value :: rest => do
    let a ← getArgValue value shell
    let r ← positionalEntries shell rest
    return a :: r

/-- Command-building part of Process.__parse_args: the program name, then
the keyword-option entries, then the positional-argument entries. -/
def parseArgsCommand (shell : Bool) (program : List Char)
    (options : List (List Char × ArgValue)) (args : List ArgValue) :
    Except PshError (List ArgEntry) := do
  let o ← optionsEntries shell options
  let p ← positionalEntries shell args
  return .text program :: (o ++ p)

/-! ### Output iterator with delimiter
(src/psh/_process/output_iterator.py lines 101-136 and 157-166)

OutputIterator.__next raises StopIteration when the buffer slot is None
(EOF already delivered) and otherwise runs __iter_with_delimiter:

    try: pos = self.__data.index(self.__delimiter)
    except ValueError:
        while True:
            data = os.read(self.__pipe.read, BUFSIZE)
            if data:
                try: pos = data.index(self.__delimiter)
                except ValueError: self.__data += data
                else:
                    block = self.__data + data[:pos + 1]
                    self.__data = data[pos + 1:]
                    return block
            else:
                block = self.__data
                self.__data = None
                if not block: raise StopIteration()
                return block
    else:
        block = self.__data[:pos + 1]
        self.__data = self.__data[pos + 1:]
        return block

The sequence of os.read results is modelled as a list of chunks; when the
list is exhausted every further read returns the empty chunk (EOF). -/

/-- Python bytes.index as an option: index of the first occurrence of d as
a contiguous subsequence, none when there is no occurrence. -/
def bytesIndex (d : List Nat) : List Nat → Option Nat
  | [] => if d.isPrefixOf ([] : List Nat) then some 0 else none
  | a :: rest =>
    if d.isPrefixOf (a :: rest) then some 0
    else (bytesIndex d rest).map (· + 1)

/-- State of the output iterator: the buffer slot (none once EOF was
delivered) and the os.read chunks not yet consumed. -/
structure IterState where
  buffer : Option (List Nat)
  reads : List (List Nat)
deriving DecidableEq, Repr

/-- Model of the inner while loop of __iter_with_delimiter: reads chunks
until one contains the delimiter or EOF is reached.  Returns the block
delivered to the caller (none is StopIteration), the new buffer slot and
the remaining chunks. -/
def readLoop (d : List Nat) (buf : List Nat) :
    List (List Nat) → Option (List Nat) × Option (List Nat) × List (List Nat)
  | [] => ((if buf = [] then none else some buf), none, [])
  | chunk :: rest =>
    if chunk = [] then ((if buf = [] then none else some buf), none, rest)
    else
      match bytesIndex d chunk with
      | some pos =>
        (some (buf ++ chunk.take (pos + 1)), some (chunk.drop (pos + 1)), rest)
      | none => readLoop d (buf ++ chunk) rest

/-- Model of one call of OutputIterator.__next with a delimiter: returns
the delivered block (none is StopIteration) and the iterator state after
the call. -/
def nextBlock (d : List Nat) (st : IterState) : Option (List Nat) × IterState :=
  match st.buffer with
  | none => (none, st)
  | some buf =>
    match bytesIndex d buf with
    | some pos => (some (buf.take (pos + 1)), ⟨some (buf.drop (pos + 1)), st.reads⟩)
    | none =>
      match readLoop d buf st.reads with
      | (blk, buf2, rest) => (blk, ⟨buf2, rest⟩)

/-- Bound on the number of blocks an iterator state can still deliver:
every delivered block is nonempty and consumes buffered or read bytes. -/
def iterMeasure (st : IterState) : Nat :=
  match st.buffer with
  | none => 0
  | some buf => buf.length + (st.reads.map List.length).sum + st.reads.length + 1

/-- Repeated calls of __next with the given step budget, collecting the
delivered blocks until StopIteration. -/
def runIterFuel (d : List Nat) : Nat → IterState → List (List Nat)
  | 0, _ => []
  | n + 1, st =>
    match nextBlock d st with
    | (none, _) => []
    | (some blk, st2) => blk :: runIterFuel d n st2

/-- Complete iteration of the output iterator: iterMeasure bounds the
number of steps, so this collects every delivered block. -/
def runIter (d : List Nat) (st : IterState) : List (List Nat) :=
  runIterFuel d (iterMeasure st) st

/-- Specification-side splitter: the blocks of a byte stream cut after
each occurrence of the single-byte delimiter c, the tail without a
delimiter forming the last block. -/
def splitKeep (c : Nat) : List Nat → List (List Nat)
  | [] => []
  | a :: s =>
    if a = c then [a] :: splitKeep c s
    else
      match splitKeep c s with
      | [] => [[a]]
      | b :: bs => (a :: b) :: bs

/-- Specification-side first block for a general delimiter, following the
claim: the stream up to and including the first occurrence of the
delimiter. -/
def claimedFirstBlock (d : List Nat) (stream : List Nat) : Option (List Nat) :=
  (bytesIndex d stream).map fun pos => stream.take (pos + d.length)

/-! ## Theorems -/

/-- C1: for a terminated Process whose stored error slot is empty,
wait(check_status=True) raises ExecutionError carrying the exit status and
the captured stdout and stderr if and only if the exit status is not among
the ok statuses; when the error slot is non-empty, the stored error is
raised instead. -/
theorem wait_check_status_raises_iff (p : TermProcess) :
    (p.errorSlot = none →
      (waitCheckStatus p true =
          .error (.executionError p.status p.rawStdout p.rawStderr) ↔
        p.status ∉ p.okStatuses)) ∧
    (∀ e, p.errorSlot = some e → waitCheckStatus p true = .error e) := by
  constructor
  · intro hslot
    unfold waitCheckStatus
    rw [hslot]
    by_cases hmem : p.status ∈ p.okStatuses <;> simp [hmem]
  · intro e hslot
    unfold waitCheckStatus
    rw [hslot]
    simp

/-- Witness for C1: a terminated process with status 1, ok statuses [0] and
empty error slot raises ExecutionError carrying status 1 and the captured
output. -/
theorem wait_check_status_raises_iff_witness :
    waitCheckStatus ⟨1, [0], none, [97], [98]⟩ true =
      .error (.executionError 1 [97] [98]) :=
  ((wait_check_status_raises_iff ⟨1, [0], none, [97], [98]⟩).1 rfl).mpr (by decide)

/-- C5: the pipe operator A | B succeeds exactly when both processes are
Pending, the stdout of A is not already redirected and the stdin of B is
not already redirected; when any check fails, the stdout target of A and
the stdin source of B are unchanged; on success they become the downstream
and upstream links. -/
theorem or_operator_spec (stA : ProcessState) (outA : StdoutTarget)
    (stB : ProcessState) (inB : StdinSource) :
    ((orOperator stA outA stB inB).1 = none ↔
      stA = .pending ∧ stB = .pending ∧ outA = .pipeSentinel ∧
        (inB = .unset ∨ inB = .stdinSentinel)) ∧
    ((orOperator stA outA stB inB).1 ≠ none →
      (orOperator stA outA stB inB).2.1 = outA ∧
      (orOperator stA outA stB inB).2.2 = inB) ∧
    ((orOperator stA outA stB inB).1 = none →
      (orOperator stA outA stB inB).2.1 = .downstream ∧
      (orOperator stA outA stB inB).2.2 = .upstream) := by
  cases stA <;> cases outA <;> cases stB <;> cases inB <;> decide

/-- C6: every accessor among status, raw_stdout, raw_stderr, stdout and
stderr raises InvalidProcessState in any state other than Terminated, and
pid raises InvalidProcessState exactly in the states before Running. -/
theorem accessors_state_guards (p : AccessedProcess) :
    (p.state ≠ .terminated →
      statusAccessor p = .error .invalidProcessState ∧
      rawStdoutAccessor p = .error .invalidProcessState ∧
      rawStderrAccessor p = .error .invalidProcessState ∧
      stdoutAccessor p = .error .invalidProcessState ∧
      stderrAccessor p = .error .invalidProcessState) ∧
    (pidAccessor p = .error .invalidProcessState ↔
      p.state = .pending ∨ p.state = .spawning) := by
  obtain ⟨st, pid, status, so, se⟩ := p
  cases st <;>
    simp [statusAccessor, rawStdoutAccessor, rawStderrAccessor, stdoutAccessor,
      stderrAccessor, pidAccessor, ensureTerminated, ProcessState.toNat,
      Except.map]

/-- Witness for C6: in the Running state all five output accessors raise
InvalidProcessState and pid does not. -/
theorem accessors_state_guards_witness :
    statusAccessor ⟨.running, some 5, none, [], []⟩ =
        .error .invalidProcessState ∧
      ¬(pidAccessor ⟨.running, some 5, none, [], []⟩ =
        .error .invalidProcessState) :=
  ⟨((accessors_state_guards ⟨.running, some 5, none, [], []⟩).1 (by decide)).1,
    fun h => by
      have := (accessors_state_guards ⟨.running, some 5, none, [], []⟩).2.mp h
      simp at this⟩

/-- C8: calling _execute on a Process that is not Pending raises
InvalidOperation and leaves the state unchanged; applying the pipe
operator to a non-Pending process (on either side) raises
InvalidProcessState and leaves both configurations unchanged. -/
theorem execute_and_pipe_reentrancy (st : ProcessState) (h : st ≠ .pending) :
    (∀ pipedTo checkPipes,
      executeGuard st pipedTo checkPipes = (some .invalidOperation, st)) ∧
    (∀ outA stB inB,
      orOperator st outA stB inB = (some .invalidProcessState, outA, inB)) ∧
    (∀ inB,
      orOperator .pending .pipeSentinel st inB =
        (some .invalidProcessState, .pipeSentinel, inB)) := by
  refine ⟨fun pipedTo checkPipes => ?_, fun outA stB inB => ?_, fun inB => ?_⟩
  · simp [executeGuard, h]
  · simp [orOperator, h]
  · simp [orOperator, pipeProcess, h]

/-- Witness for C8: a Terminated process can neither be executed nor
piped. -/
theorem execute_and_pipe_reentrancy_witness :
    executeGuard .terminated false true =
        (some .invalidOperation, .terminated) ∧
      orOperator .terminated .pipeSentinel .pending .unset =
        (some .invalidProcessState, .pipeSentinel, .unset) :=
  ⟨(execute_and_pipe_reentrancy .terminated (by decide)).1 false true,
    (execute_and_pipe_reentrancy .terminated (by decide)).2.1 .pipeSentinel
      .pending .unset⟩

/-- C9: adopting an end from another Pipe empties the source slot for that
end; a close call never touches an absent (closed or transferred) end;
after a successful close, closing again performs no close call; a fresh
pipe released normally closes each of its two descriptors exactly once. -/
theorem pipe_close_exactly_once (p : PipeEnds) (okT ok2 : Nat → Bool)
    (hT : ∀ fd, okT fd = true) :
    ((PipeEnds.adopt p true).2.write = none ∧
      (PipeEnds.adopt p false).2.read = none) ∧
    (∀ q : PipeEnds, ∀ rd wr : Bool, q.write = none →
      (q.close rd wr ok2).2 = if rd then (closeSlot q.read ok2).2 else []) ∧
    (∀ q : PipeEnds, ∀ rd wr : Bool, q.read = none →
      (q.close rd wr ok2).2 = if wr then (closeSlot q.write ok2).2 else []) ∧
    (∀ rd wr : Bool, ((p.close rd wr okT).1.close rd wr ok2).2 = []) ∧
    (∀ rfd wfd, (PipeEnds.fresh rfd wfd).close true true okT =
      (⟨none, none⟩, [rfd, wfd])) := by
  refine ⟨⟨by simp [PipeEnds.adopt], by simp [PipeEnds.adopt]⟩,
    fun q rd wr hw => ?_, fun q rd wr hr => ?_, fun rd wr => ?_,
    fun rfd wfd => ?_⟩
  · cases rd <;> cases wr <;> simp [PipeEnds.close, hw, closeSlot]
  · cases rd <;> cases wr <;> simp [PipeEnds.close, hr, closeSlot]
  · obtain ⟨r, w⟩ := p
    cases rd <;> cases wr <;> cases r <;> cases w <;>
      simp [PipeEnds.close, closeSlot, hT]
  · simp [PipeEnds.fresh, PipeEnds.close, closeSlot, hT]

/-- Witness for C9: a fresh pipe with descriptors 3 and 4, closed twice
with always-succeeding os.close, performs no close call the second time. -/
theorem pipe_close_exactly_once_witness :
    (((PipeEnds.fresh 3 4).close true true (fun _ => true)).1.close true true
      (fun _ => true)).2 = [] :=
  (pipe_close_exactly_once (PipeEnds.fresh 3 4) (fun _ => true) (fun _ => true)
    (fun _ => rfl)).2.2.2.1 true true

/-- C10: kill on a Terminated process returns False, sends no signal and
raises nothing; kill raises InvalidProcessState exactly in the Pending and
Spawning states. -/
theorem kill_terminated_returns_false (pid : Nat) :
    (∀ osKill, processKill .terminated pid osKill = .ok (false, [])) ∧
    (∀ st osKill, processKill st pid osKill = .error .invalidProcessState ↔
      st = .pending ∨ st = .spawning) := by
  constructor
  · intro osKill
    simp [processKill, ProcessState.toNat]
  · intro st osKill
    cases st <;> cases osKill <;>
      simp [processKill, ProcessState.toNat, ESRCH] <;>
      split <;> simp_all

/-- C2 counterexample: with _truncate_output false, a drain whose very
first non-blocking read raises EAGAIN sets the error slot to
ProcessOutputWasTruncated although no byte was read, so the cap of 1 MiB
was not reached; the claim that the error is set only when EAGAIN occurs
after the cap has been reached is false. -/
theorem drain_error_set_before_cap :
    (drainLoop false [ReadEvent.err true] 0).truncErrSet = true ∧
    (drainLoop false [ReadEvent.err true] 0).size = 0 ∧
    (drainLoop false [ReadEvent.err true] 0).size < maxDataSize := by decide

/-- Helper for C2: behaviour of the drain loop of one descriptor, for any
starting byte count. -/
theorem drainLoop_cases (truncate : Bool) (evs : List ReadEvent) (size : Nat) :
    ((drainLoop truncate evs size).truncErrSet = true ↔
      (drainLoop truncate evs size).reason = .eagain ∧ truncate = false) ∧
    ((drainLoop truncate evs size).reason = .eagain →
      (drainLoop truncate evs size).size < maxDataSize) ∧
    ((drainLoop truncate evs size).reason = .cap →
      maxDataSize ≤ (drainLoop truncate evs size).size) := by
  induction evs generalizing size with
  | nil =>
    rw [drainLoop.eq_def]
    split
    · simp_all
    · simp_all
  | cons ev rest ih =>
    rw [drainLoop.eq_def]
    split
    · simp_all
    · match ev with
      | .err isEAGAIN =>
        cases isEAGAIN <;> cases truncate <;> simp_all <;> omega
      | .data chunk =>
        by_cases hc : chunk = []
        · simp [hc]
        · simpa [hc] using ih (size + chunk.length)

/-- C2 amended: the drain of one descriptor stops at EOF, EAGAIN, the cap
or a non-EAGAIN error; the error slot is set to ProcessOutputWasTruncated
exactly when the loop stopped on EAGAIN (which can only happen while the
byte count is still below the cap) and _truncate_output is false; the loop
stops on the cap only once the byte count has reached it; with
_truncate_output true the error slot is never set, on any descriptor of
the drain phase. -/
theorem drain_loop_truncation_error (truncate : Bool) (evs : List ReadEvent)
    (size : Nat) :
    ((drainLoop truncate evs size).truncErrSet = true ↔
      (drainLoop truncate evs size).reason = .eagain ∧ truncate = false) ∧
    ((drainLoop truncate evs size).reason = .eagain →
      (drainLoop truncate evs size).size < maxDataSize) ∧
    ((drainLoop truncate evs size).reason = .cap →
      maxDataSize ≤ (drainLoop truncate evs size).size) ∧
    (∀ pipes, drainPhase true pipes = false) := by
  have phase : ∀ pipes, drainPhase true pipes = false := by
    intro pipes
    have step : ∀ evs : List ReadEvent,
        (drainLoop true evs 0).truncErrSet = false := by
      intro evs
      have h := (drainLoop_cases true evs 0).1
      cases hset : (drainLoop true evs 0).truncErrSet
      · rfl
      · exact absurd ((h.mp hset).2) (by simp)
    unfold drainPhase
    induction pipes with
    | nil => rfl
    | cons p ps ih => simpa [step p] using ih
  exact ⟨(drainLoop_cases truncate evs size).1,
    (drainLoop_cases truncate evs size).2.1,
    (drainLoop_cases truncate evs size).2.2, phase⟩

/-- Witness for C2 amended: a drain that reads three bytes and then hits
EOF sets no error, and the stop reason EOF is reflected in the result. -/
theorem drain_loop_truncation_error_witness :
    (drainLoop false [ReadEvent.data [1, 2, 3], ReadEvent.data []] 0).truncErrSet
      = false :=
  by
    have h :=
      (drain_loop_truncation_error false
        [ReadEvent.data [1, 2, 3], ReadEvent.data []] 0).1
    cases hset : (drainLoop false
        [ReadEvent.data [1, 2, 3], ReadEvent.data []] 0).truncErrSet
    · rfl
    · exact absurd ((h.mp hset).1) (by decide)

/-- Reference evaluation of the PIPESTATUS inspection, walking the ok
lists and the statuses in lockstep: the first non-tail stage whose status
is outside its ok list exits with 128, otherwise the tail status is the
result. -/
def pipeRef : List (List Int) → List Int → Int
  | [], _ => 0
  | [_], sts => sts.headD 0
  | ok :: rest, sts => if sts.headD 0 ∈ ok then pipeRef rest sts.tail else 128

/-- Helper: list indexing with default as head of the dropped suffix. -/
theorem getD_eq_headD_drop (l : List Int) (i : Nat) :
    l.getD i 0 = (l.drop i).headD 0 := by
  induction l generalizing i with
  | nil => simp
  | cons a t ih =>
    cases i with
    | zero => simp
    | succ j => simpa using ih j

/-- Helper: runStmts on the generated statement list agrees with the
lockstep reference evaluation, for any starting stage index. -/
theorem runStmts_pipestatusGo (oks : List (List Int)) :
    ∀ (i : Nat) (sts : List Int),
      runStmts sts (pipestatusGo i oks) = pipeRef oks (sts.drop i) := by
  induction oks with
  | nil => intro i sts; rfl
  | cons ok rest ih =>
    intro i sts
    match rest with
    | [] =>
      simp only [pipestatusGo, runStmts, pipeRef]
      exact getD_eq_headD_drop sts i
    | r :: rs =>
      simp only [pipestatusGo, runStmts, pipeRef]
      rw [getD_eq_headD_drop sts i, List.tail_drop]
      by_cases hmem : (sts.drop i).headD 0 ∈ ok <;> simp [hmem, ih (i + 1) sts]

/-- Helper: closed form of the lockstep reference evaluation. -/
theorem pipeRef_closed_form (oks : List (List Int)) (sts : List Int)
    (hne : oks ≠ []) (hlen : sts.length = oks.length) :
    pipeRef oks sts =
      if ∀ i, i < oks.length - 1 → sts.getD i 0 ∈ oks.getD i [] then
        sts.getLastD 0
      else 128 := by
  induction oks generalizing sts with
  | nil => exact absurd rfl hne
  | cons ok rest ih =>
    match rest, sts with
    | [], [s] => simp [pipeRef]
    | r :: rs, s :: sts2 =>
      have hlen2 : sts2.length = (r :: rs).length := by
        simpa using hlen
      have hcond : (∀ i, i < (ok :: r :: rs).length - 1 →
          (s :: sts2).getD i 0 ∈ (ok :: r :: rs).getD i []) ↔
          (s ∈ ok ∧ ∀ j, j < (r :: rs).length - 1 →
            sts2.getD j 0 ∈ (r :: rs).getD j []) := by
        constructor
        · intro h
          refine ⟨by simpa using h 0 (by simp), fun j hj => ?_⟩
          simpa using h (j + 1) (by simpa using Nat.succ_lt_succ hj)
        · intro h i hi
          cases i with
          | zero => simpa using h.1
          | succ j =>
            have hj : j < (r :: rs).length - 1 := by
              simpa using Nat.lt_of_succ_lt_succ (by simpa using hi)
            simpa using h.2 j hj
      have hlast : (s :: sts2).getLastD 0 = sts2.getLastD 0 := by
        have : sts2 ≠ [] := by
          intro hemp
          rw [hemp] at hlen2
          simp at hlen2
        cases sts2 with
        | nil => exact absurd rfl this
        | cons x xs => simp [List.getLastD]
      show (if s ∈ ok then pipeRef (r :: rs) sts2 else 128) = _
      rw [ih sts2 (by simp) hlen2]
      by_cases hs : s ∈ ok
      · by_cases hrest : ∀ j, j < (r :: rs).length - 1 →
            sts2.getD j 0 ∈ (r :: rs).getD j []
        · rw [if_pos hs, if_pos hrest, if_pos (hcond.mpr ⟨hs, hrest⟩), hlast]
        · rw [if_pos hs, if_neg hrest, if_neg]
          intro hall
          exact hrest (hcond.mp hall).2
      · rw [if_neg hs, if_neg]
        intro hall
        exact hs (hcond.mp hall).1

/-- C3 counterexample: for the two-stage pipeline whose stages both have
ok_statuses = [0] and whose observed PIPESTATUS vector is [5, 0], the
emitted inspection exits with 128, not with the first stage status 5 as
the claim states. -/
theorem pipestatus_exits_128_not_own_status :
    pipelineExit [[0], [0]] [5, 0] = 128 ∧ (128 : Int) ≠ 5 := by decide

/-- C3 amended: for every multi-stage pipeline, the emitted PIPESTATUS
inspection exits with the tail stage status when every non-tail stage
status lies in that stage ok_statuses list, and exits with the constant
128 otherwise. -/
theorem pipestatus_inspection_semantics (okLists : List (List Int))
    (statuses : List Int) (hlen : statuses.length = okLists.length)
    (h2 : 2 ≤ okLists.length) :
    pipelineExit okLists statuses =
      if ∀ i, i < okLists.length - 1 →
          statuses.getD i 0 ∈ okLists.getD i [] then
        statuses.getLastD 0
      else 128 := by
  have hne : okLists ≠ [] := by
    intro h
    rw [h] at h2
    exact absurd h2 (by decide)
  calc pipelineExit okLists statuses
      = pipeRef okLists (statuses.drop 0) :=
        runStmts_pipestatusGo okLists 0 statuses
    _ = pipeRef okLists statuses := by rw [List.drop_zero]
    _ = _ := pipeRef_closed_form okLists statuses hne hlen

/-- Witness for C3 amended: a two-stage pipeline with ok statuses [0] for
the head and observed statuses [0, 7] exits with the tail status 7. -/
theorem pipestatus_inspection_semantics_witness :
    pipelineExit [[0], [0]] [0, 7] = 7 := by
  rw [pipestatus_inspection_semantics [[0], [0]] [0, 7] (by decide) (by decide)]
  decide

/-- C7 counterexample: with _shell true, a Process value does not raise
InvalidArgument but is rendered to its shell-script serialization, so the
claim that every value other than text, bytes, integers and floats raises
InvalidArgument is false. -/
theorem process_value_accepted_in_shell_mode :
    getArgValue (ArgValue.vProc [98, 97]) true = .ok (.raw [98, 97]) ∧
    getArgValue (ArgValue.vProc [98, 97]) true ≠
      .error PshError.invalidArgument := by
  refine ⟨rfl, ?_⟩
  intro h
  simp [getArgValue] at h

/-- C7 amended: keyword options not starting with an underscore render to
-x or --name-with-hyphens flags with the value as a separate entry unless
it is a boolean; values that are text or bytes pass through, integers and
floats are decimal-formatted, a Process value is rendered to its shell
serialization exactly when _shell is true, and any other value raises
InvalidArgument. -/
theorem argument_rendering_rules (shell : Bool) (name : List Char)
    (v : ArgValue) :
    (isReservedName name = true → optionEntries shell name v = .ok []) ∧
    (isReservedName name = false →
      (v = .vTrue → optionEntries shell name v = .ok [.text (optionFlag name)]) ∧
      (v = .vFalse → optionEntries shell name v = .ok []) ∧
      (∀ a, v ≠ .vTrue → v ≠ .vFalse → getArgValue v shell = .ok a →
        optionEntries shell name v = .ok [.text (optionFlag name), a]) ∧
      (∀ e, v ≠ .vTrue → v ≠ .vFalse → getArgValue v shell = .error e →
        optionEntries shell name v = .error e)) ∧
    (name.length = 1 → optionFlag name = '-' :: name) ∧
    (name.length ≠ 1 → optionFlag name =
      '-' :: '-' :: name.map fun ch => if ch = '_' then '-' else ch) ∧
    ((∃ s, v = .vStr s ∧ getArgValue v shell = .ok (.text s)) ∨
      (∃ b, v = .vBytes b ∧ getArgValue v shell = .ok (.raw b)) ∨
      (∃ n, v = .vInt n ∧ getArgValue v shell = .ok (.text (toString n).data)) ∨
      (∃ r, v = .vFloat r ∧ getArgValue v shell = .ok (.text r)) ∨
      (∃ cmd, v = .vProc cmd ∧ shell = true ∧
        getArgValue v shell = .ok (.raw cmd)) ∨
      getArgValue v shell = .error .invalidArgument) ∧
    (∀ program options args os ps,
      optionsEntries shell options = .ok os →
      positionalEntries shell args = .ok ps →
      parseArgsCommand shell program options args =
        .ok (.text program :: (os ++ ps))) := by
  refine ⟨fun hres => ?_, fun hres => ⟨fun hv => ?_, fun hv => ?_,
    fun a h1 h2 hget => ?_, fun e h1 h2 hget => ?_⟩, fun hlen => ?_,
    fun hlen => ?_, ?_, fun program options args os ps ho hp => ?_⟩
  · simp [optionEntries, hres]
  · simp [optionEntries, hres, hv]
  · simp [optionEntries, hres, hv]
  · simp [optionEntries, hres, h1, h2, hget, Except.map]
  · simp [optionEntries, hres, h1, h2, hget, Except.map]
  · simp [optionFlag, hlen]
  · simp [optionFlag, hlen]
  · match v with
    | .vStr s => exact Or.inl ⟨s, rfl, rfl⟩
    | .vBytes b => exact Or.inr (Or.inl ⟨b, rfl, rfl⟩)
    | .vInt n => exact Or.inr (Or.inr (Or.inl ⟨n, rfl, rfl⟩))
    | .vFloat r => exact Or.inr (Or.inr (Or.inr (Or.inl ⟨r, rfl, rfl⟩)))
    | .vProc cmd =>
      cases shell with
      | true =>
        exact Or.inr (Or.inr (Or.inr (Or.inr (Or.inl ⟨cmd, rfl, rfl, rfl⟩))))
      | false =>
        exact Or.inr (Or.inr (Or.inr (Or.inr (Or.inr rfl))))
    | .vTrue => exact Or.inr (Or.inr (Or.inr (Or.inr (Or.inr rfl))))
    | .vFalse => exact Or.inr (Or.inr (Or.inr (Or.inr (Or.inr rfl))))
    | .vOther => exact Or.inr (Or.inr (Or.inr (Or.inr (Or.inr rfl))))
  · simp only [parseArgsCommand, ho, hp]
    rfl

/-- Witness for C7 amended: the option max_count=1 renders to the two argv
entries --max-count and 1. -/
theorem argument_rendering_rules_witness :
    optionEntries false "max_count".data (ArgValue.vInt 1) =
      .ok [.text "--max-count".data, .text "1".data] := by
  have h := (argument_rendering_rules false "max_count".data
    (ArgValue.vInt 1)).2.1 (by decide)
  have h2 := h.2.2.1 (.text "1".data) (by simp) (by simp) (by rfl)
  have hflag := (argument_rendering_rules false "max_count".data
    (ArgValue.vInt 1)).2.2.2.1 (by decide)
  rw [h2, hflag]
  rfl

/-- Helper: prefix test of a single byte against a cons cell. -/
theorem isPrefixOf_single (c a : Nat) (rest : List Nat) :
    List.isPrefixOf [c] (a :: rest) = (c == a) := by
  simp [List.isPrefixOf]

/-- Helper: unfolding equation of bytesIndex on the empty string. -/
theorem bytesIndex_nil (d : List Nat) :
    bytesIndex d [] = if d.isPrefixOf ([] : List Nat) then some 0 else none := rfl

/-- Helper: unfolding equation of bytesIndex on a cons cell. -/
theorem bytesIndex_cons (d : List Nat) (a : Nat) (rest : List Nat) :
    bytesIndex d (a :: rest) =
      if d.isPrefixOf (a :: rest) then some 0
      else (bytesIndex d rest).map (· + 1) := rfl

/-- Helper: a failed single-byte search means the byte does not occur. -/
theorem bytesIndex_single_none {c : Nat} {s : List Nat}
    (h : bytesIndex [c] s = none) : c ∉ s := by
  induction s with
  | nil => simp
  | cons a rest ih =>
    rw [bytesIndex_cons, isPrefixOf_single] at h
    by_cases hca : c = a
    · simp [hca] at h
    · have hrest : bytesIndex [c] rest = none := by
        rcases hidx : bytesIndex [c] rest with _ | pos
        · rfl
        · rw [hidx] at h
          simp [hca] at h
      simpa [hca] using ih hrest

/-- Helper: a successful single-byte search decomposes the string around
the first occurrence of the byte. -/
theorem bytesIndex_single_some {c : Nat} : ∀ {s : List Nat} {pos : Nat},
    bytesIndex [c] s = some pos →
    s.take (pos + 1) = s.take pos ++ [c] ∧
    c ∉ s.take pos ∧
    s = s.take pos ++ c :: s.drop (pos + 1) := by
  intro s
  induction s with
  | nil =>
    intro pos h
    rw [bytesIndex_nil] at h
    simp [List.isPrefixOf] at h
  | cons a rest ih =>
    intro pos h
    rw [bytesIndex_cons, isPrefixOf_single] at h
    by_cases hca : c = a
    · rw [if_pos (by simp [hca])] at h
      have hpos : pos = 0 := by
        have := h
        simp at this
        omega
      subst hpos
      simp [hca]
    · rw [if_neg (by simp [hca])] at h
      rcases hidx : bytesIndex [c] rest with _ | q
      · rw [hidx] at h
        simp at h
      · rw [hidx] at h
        simp only [Option.map_some'] at h
        have hq : pos = q + 1 := by
          have := h
          simp at this
          omega
        subst hq
        obtain ⟨h1, h2, h3⟩ := ih hidx
        refine ⟨?_, ?_, ?_⟩
        · simp only [List.take_succ_cons, h1, List.cons_append]
        · simp only [List.take_succ_cons, List.mem_cons]
          rintro (rfl | hmem)
          · exact hca rfl
          · exact h2 hmem
        · simpa [List.take_succ_cons, List.drop_succ_cons] using congrArg (a :: ·) h3

/-- Helper: unfolding equation of splitKeep on a cons cell. -/
theorem splitKeep_cons (c a : Nat) (s : List Nat) :
    splitKeep c (a :: s) =
      if a = c then [a] :: splitKeep c s
      else
        match splitKeep c s with
        | [] => [[a]]
        | b :: bs => (a :: b) :: bs := rfl

/-- Helper: splitKeep cuts after the first occurrence of the delimiter. -/
theorem splitKeep_first_cut (c : Nat) : ∀ (u v : List Nat), c ∉ u →
    splitKeep c (u ++ c :: v) = (u ++ [c]) :: splitKeep c v := by
  intro u
  induction u with
  | nil => intro v _; simp [splitKeep]
  | cons a u2 ih =>
    intro v hmem
    have hne : a ≠ c := by
      intro h
      exact hmem (by simp [h])
    have hmem2 : c ∉ u2 := fun h => hmem (by simp [h])
    rw [List.cons_append, splitKeep_cons, if_neg hne, ih v hmem2]
    rfl

/-- Helper: splitKeep of a delimiter-free string is the single block. -/
theorem splitKeep_no_delimiter (c : Nat) : ∀ (s : List Nat), c ∉ s →
    splitKeep c s = if s = [] then [] else [s] := by
  intro s
  induction s with
  | nil => intro _; simp [splitKeep]
  | cons a rest ih =>
    intro hmem
    have hne : a ≠ c := by
      intro h
      exact hmem (by simp [h])
    have hmem2 : c ∉ rest := fun h => hmem (by simp [h])
    rw [splitKeep, if_neg hne, ih hmem2]
    cases rest with
    | nil => simp
    | cons x xs => simp

/-- Helper: unfolding equation of readLoop at end of stream. -/
theorem readLoop_nil (d : List Nat) (buf : List Nat) :
    readLoop d buf [] = ((if buf = [] then none else some buf), none, []) := rfl

/-- Helper: unfolding equation of readLoop on a cons cell. -/
theorem readLoop_cons (d : List Nat) (buf chunk : List Nat)
    (rest : List (List Nat)) :
    readLoop d buf (chunk :: rest) =
      if chunk = [] then ((if buf = [] then none else some buf), none, rest)
      else
        match bytesIndex d chunk with
        | some pos =>
          (some (buf ++ chunk.take (pos + 1)), some (chunk.drop (pos + 1)), rest)
        | none => readLoop d (buf ++ chunk) rest := rfl

/-- Helper: unfolding equation of runIterFuel on a successor budget. -/
theorem runIterFuel_succ (d : List Nat) (n : Nat) (st : IterState) :
    runIterFuel d (n + 1) st =
      match nextBlock d st with
      | (none, _) => []
      | (some blk, st2) => blk :: runIterFuel d n st2 := rfl

/-- Helper: once the buffer slot is None, iteration delivers nothing. -/
theorem runIterFuel_none (d : List Nat) (n : Nat) (rs : List (List Nat)) :
    runIterFuel d n ⟨none, rs⟩ = [] := by
  cases n with
  | zero => rfl
  | succ m => rfl

/-- Helper: behaviour of the read loop under a single-byte delimiter not
occurring in the buffer, by cases on whether the delimiter occurs in the
remaining chunks. -/
theorem readLoop_single_spec (c : Nat) :
    ∀ (reads : List (List Nat)) (buf : List Nat), c ∉ buf →
    (∀ r ∈ reads, r ≠ []) →
    (c ∉ reads.join ∧
      readLoop [c] buf reads =
        ((if buf ++ reads.join = [] then none else some (buf ++ reads.join)),
          none, [])) ∨
    (∃ u v rest2,
      readLoop [c] buf reads = (some (buf ++ u ++ [c]), some v, rest2) ∧
      reads.join = u ++ c :: (v ++ rest2.join) ∧
      c ∉ u ∧ (∀ r ∈ rest2, r ≠ []) ∧
      iterMeasure ⟨some v, rest2⟩ < iterMeasure ⟨some buf, reads⟩) := by
  intro reads
  induction reads with
  | nil =>
    intro buf hbuf _
    left
    refine ⟨by simp, ?_⟩
    rw [readLoop_nil]
    simp
  | cons chunk rest ih =>
    intro buf hbuf hnonempty
    have hchunk : chunk ≠ [] := hnonempty chunk (by simp)
    have hrest : ∀ r ∈ rest, r ≠ [] := fun r hr => hnonempty r (by simp [hr])
    have hjc : (chunk :: rest).join = chunk ++ rest.join := rfl
    rcases hidx : bytesIndex [c] chunk with _ | pos
    · have hc : c ∉ chunk := bytesIndex_single_none hidx
      have hbc : c ∉ buf ++ chunk := by
        simp only [List.mem_append]
        rintro (h | h)
        · exact hbuf h
        · exact hc h
      rcases ih (buf ++ chunk) hbc hrest with ⟨hnj, heq⟩ |
        ⟨u, v, rest2, heq, hjoin, hu, hr2, hlt⟩
      · left
        constructor
        · rw [hjc]
          simp only [List.mem_append]
          rintro (h | h)
          · exact hc h
          · exact hnj h
        · rw [readLoop_cons, if_neg hchunk, hidx]
          rw [heq, hjc]
          simp [List.append_assoc]
      · right
        refine ⟨chunk ++ u, v, rest2, ?_, ?_, ?_, hr2, ?_⟩
        · rw [readLoop_cons, if_neg hchunk, hidx, heq]
          simp [List.append_assoc]
        · rw [hjc, hjoin]
          simp [List.append_assoc]
        · simp only [List.mem_append]
          rintro (h | h)
          · exact hc h
          · exact hu h
        · simp only [iterMeasure, List.map_cons, List.sum_cons,
            List.length_append, List.length_cons] at hlt ⊢
          omega
    · obtain ⟨h1, h2, h3⟩ := bytesIndex_single_some hidx
      right
      refine ⟨chunk.take pos, chunk.drop (pos + 1), rest, ?_, ?_, h2, hrest, ?_⟩
      · rw [readLoop_cons, if_neg hchunk, hidx]
        show (some (buf ++ chunk.take (pos + 1)),
          some (chunk.drop (pos + 1)), rest) = _
        rw [h1, ← List.append_assoc]
      · rw [hjc]
        conv_lhs => rw [h3]
        simp [List.append_assoc]
      · have hdrop : (chunk.drop (pos + 1)).length ≤ chunk.length := by
          rw [List.length_drop]
          omega
        simp only [iterMeasure, List.map_cons, List.sum_cons, List.length_cons]
        omega

/-- Helper: with a single-byte delimiter and nonempty os.read chunks,
iteration from any buffer delivers exactly the splitKeep blocks of the
buffered bytes followed by the remaining stream, for any sufficient step
budget. -/
theorem runIterFuel_single_spec (c : Nat) :
    ∀ (n : Nat) (buf : List Nat) (reads : List (List Nat)),
    (∀ r ∈ reads, r ≠ []) →
    iterMeasure ⟨some buf, reads⟩ ≤ n →
    runIterFuel [c] n ⟨some buf, reads⟩ = splitKeep c (buf ++ reads.join) := by
  intro n
  induction n with
  | zero =>
    intro buf reads _ hle
    simp [iterMeasure] at hle
  | succ n ih =>
    intro buf reads hne hle
    rcases hidx : bytesIndex [c] buf with _ | pos
    · have hbuf : c ∉ buf := bytesIndex_single_none hidx
      rcases readLoop_single_spec c reads buf hbuf hne with ⟨hnj, heq⟩ |
        ⟨u, v, rest2, heq, hjoin, hu, hr2, hlt⟩
      · by_cases hempty : buf ++ reads.join = []
        · have hnb : nextBlock [c] ⟨some buf, reads⟩ = (none, ⟨none, []⟩) := by
            simp [nextBlock, hidx, heq, hempty]
          rw [runIterFuel_succ, hnb, hempty]
          rfl
        · have hnb : nextBlock [c] ⟨some buf, reads⟩ =
              (some (buf ++ reads.join), ⟨none, []⟩) := by
            simp [nextBlock, hidx, heq, hempty]
          rw [runIterFuel_succ, hnb]
          have hnomem : c ∉ buf ++ reads.join := by
            simp only [List.mem_append]
            rintro (h | h)
            · exact hbuf h
            · exact hnj h
          rw [splitKeep_no_delimiter c _ hnomem, if_neg hempty]
          simp [runIterFuel_none]
      · have hnb : nextBlock [c] ⟨some buf, reads⟩ =
            (some (buf ++ u ++ [c]), ⟨some v, rest2⟩) := by
          simp [nextBlock, hidx, heq]
        rw [runIterFuel_succ, hnb]
        have hm : iterMeasure ⟨some v, rest2⟩ ≤ n := by omega
        rw [show ((match (some (buf ++ u ++ [c]), (⟨some v, rest2⟩ : IterState))
              with
            | (none, _) => ([] : List (List Nat))
            | (some blk, st2) => blk :: runIterFuel [c] n st2) =
            (buf ++ u ++ [c]) :: runIterFuel [c] n ⟨some v, rest2⟩) from rfl]
        rw [ih v rest2 hr2 hm]
        have hbu : c ∉ buf ++ u := by
          simp only [List.mem_append]
          rintro (h | h)
          · exact hbuf h
          · exact hu h
        conv_rhs => rw [hjoin]
        rw [← List.append_assoc, splitKeep_first_cut c (buf ++ u) _ hbu]
    · obtain ⟨h1, h2, h3⟩ := bytesIndex_single_some hidx
      have hnb : nextBlock [c] ⟨some buf, reads⟩ =
          (some (buf.take (pos + 1)), ⟨some (buf.drop (pos + 1)), reads⟩) := by
        simp [nextBlock, hidx]
      rw [runIterFuel_succ, hnb]
      have hlen : buf.length = pos + (1 + (buf.drop (pos + 1)).length) := by
        conv_lhs => rw [h3]
        have htake : (buf.take pos).length = pos := by
          have hge : pos + 1 ≤ buf.length := by
            have := congrArg List.length h3
            simp [List.length_append] at this
            omega
          rw [List.length_take]
          omega
        simp [List.length_append, htake]
        omega
      have hm : iterMeasure ⟨some (buf.drop (pos + 1)), reads⟩ ≤ n := by
        simp only [iterMeasure] at hle ⊢
        omega
      rw [show ((match (some (buf.take (pos + 1)),
            (⟨some (buf.drop (pos + 1)), reads⟩ : IterState)) with
          | (none, _) => ([] : List (List Nat))
          | (some blk, st2) => blk :: runIterFuel [c] n st2) =
          buf.take (pos + 1) ::
            runIterFuel [c] n ⟨some (buf.drop (pos + 1)), reads⟩) from rfl]
      rw [ih _ reads hne hm]
      have hsplit : buf ++ reads.join =
          buf.take pos ++ c :: (buf.drop (pos + 1) ++ reads.join) := by
        conv_lhs => rw [h3]
        simp [List.append_assoc]
      rw [hsplit, splitKeep_first_cut c (buf.take pos) _ h2, ← h1]

/-- C4 counterexample: with the two-byte delimiter [1, 2] and a single
read chunk [0, 1, 2, 3], the first iteration step returns the block
[0, 1], cut one byte past the start of the delimiter occurrence, not the
claimed block [0, 1, 2] extending up to and including the delimiter. -/
theorem delimiter_block_misses_multibyte :
    (nextBlock [1, 2] ⟨some [], [[0, 1, 2, 3]]⟩).1 = some [0, 1] ∧
    claimedFirstBlock [1, 2] ([[0, 1, 2, 3]] : List (List Nat)).join =
      some [0, 1, 2] ∧
    (some [0, 1] : Option (List Nat)) ≠ some [0, 1, 2] := by decide

/-- C4 amended: for every output iterator constructed with a length-one
delimiter, iteration returns exactly the blocks of the child stdout byte
stream cut after each delimiter occurrence, regardless of how the stream
is split into (nonempty) underlying reads; at EOF a remaining tail block
is returned; and once the buffer slot is cleared every further step
raises StopIteration. -/
theorem output_iterator_single_byte_delimiter (c : Nat)
    (reads : List (List Nat)) (hne : ∀ r ∈ reads, r ≠ []) :
    runIter [c] ⟨some [], reads⟩ = splitKeep c reads.join ∧
    (∀ n, iterMeasure ⟨some [], reads⟩ ≤ n →
      runIterFuel [c] n ⟨some [], reads⟩ = splitKeep c reads.join) ∧
    (∀ rs, nextBlock [c] ⟨none, rs⟩ = (none, ⟨none, rs⟩)) := by
  refine ⟨?_, fun n hn => ?_, fun rs => rfl⟩
  · simpa [runIter] using
      runIterFuel_single_spec c (iterMeasure ⟨some [], reads⟩) [] reads hne
        le_rfl
  · simpa using runIterFuel_single_spec c n [] reads hne hn

/-- Witness for C4 amended: with newline as delimiter, the stream split
into reads [97, 10, 98] and [99] yields the blocks [97, 10] and [98, 99],
the latter (the tail without delimiter) delivered at EOF. -/
theorem output_iterator_single_byte_delimiter_witness :
    runIter [10] ⟨some [], [[97, 10, 98], [99]]⟩ = [[97, 10], [98, 99]] := by
  rw [(output_iterator_single_byte_delimiter 10 [[97, 10, 98], [99]]
    (by decide)).1]
  rfl

end Psh
